import Mathlib

/-!
# Verification of the batch-request lifecycle manager

A shallow embedding, in Lean 4, of the core of the `label-game-icons-net`
batch-request manager (`batch_requests.py`, `utils.py`, with the data model of
`icons.py` / `config.py`), together with theorems settling the specification
claims about it.

Conventions of the embedding:
* Python `int` / `str` become `Nat`/`Int` / `String`; 32-bit arithmetic inside
  the md5 digest is `Nat` arithmetic reduced with `&&& mask32`.
* Stateful code is explicit state passing; the file system is an association
  list from paths to file contents.
* Code that raises becomes `Except`; code that returns `None` becomes `Option`.
* External collaborators (PIL image resizing, the prompt template renderer,
  `datetime.now()`) are parameters of the functions that call them.
* `yaml.safe_dump`/`yaml.safe_load` and `json.dumps`/`json.loads` round-trips
  are abstracted: persisted records are structured values, and the JSON
  serializer (`dumpJson`, mirroring `json.dumps` with its default separators
  and `ensure_ascii`) is modelled explicitly where the claims need it.
-/

namespace LabelGameIcons

/-! ## `utils.py`: base36, md5-based tuple hashing (`hash_tuple_simple`) -/

/-- 2^32 - 1, the mask for 32-bit words. -/
def mask32 : Nat := 4294967295

/-- Addition modulo 2^32. -/
def add32 (a b : Nat) : Nat := (a + b) &&& mask32

/-- Bitwise complement on 32-bit words. -/
def not32 (a : Nat) : Nat := a ^^^ mask32

/-- Left-rotation of a 32-bit word by `n` places (`n ≤ 32`). -/
def rotl32 (x n : Nat) : Nat := ((x <<< n) ||| (x >>> (32 - n))) &&& mask32

/-- Little-endian word from (up to) four bytes. -/
def leWord (bs : List Nat) : Nat := bs.foldr (fun b acc => b + 256 * acc) 0

/-- `k` little-endian bytes of `n`. -/
def leBytes : Nat → Nat → List Nat
  | _, 0 => []
  | n, k + 1 => (n &&& 255) :: leBytes (n >>> 8) k

/-- Split a byte list into chunks of 64 (fuel-driven so it reduces in the kernel). -/
def chunks64 : Nat → List Nat → List (List Nat)
  | 0, _ => []
  | _, [] => []
  | fuel + 1, bs => bs.take 64 :: chunks64 fuel (bs.drop 64)

/-- Split a 64-byte chunk into sixteen little-endian 32-bit words. -/
def words16 : Nat → List Nat → List Nat
  | 0, _ => []
  | _, [] => []
  | fuel + 1, bs => leWord (bs.take 4) :: words16 fuel (bs.drop 4)

/-- The md5 round-constant table `K` (RFC 1321). -/
def md5K : List Nat :=
  [0xd76aa478, 0xe8c7b756, 0x242070db, 0xc1bdceee,
   0xf57c0faf, 0x4787c62a, 0xa8304613, 0xfd469501,
   0x698098d8, 0x8b44f7af, 0xffff5bb1, 0x895cd7be,
   0x6b901122, 0xfd987193, 0xa679438e, 0x49b40821,
   0xf61e2562, 0xc040b340, 0x265e5a51, 0xe9b6c7aa,
   0xd62f105d, 0x02441453, 0xd8a1e681, 0xe7d3fbc8,
   0x21e1cde6, 0xc33707d6, 0xf4d50d87, 0x455a14ed,
   0xa9e3e905, 0xfcefa3f8, 0x676f02d9, 0x8d2a4c8a,
   0xfffa3942, 0x8771f681, 0x6d9d6122, 0xfde5380c,
   0xa4beea44, 0x4bdecfa9, 0xf6bb4b60, 0xbebfbc70,
   0x289b7ec6, 0xeaa127fa, 0xd4ef3085, 0x04881d05,
   0xd9d4d039, 0xe6db99e5, 0x1fa27cf8, 0xc4ac5665,
   0xf4292244, 0x432aff97, 0xab9423a7, 0xfc93a039,
   0x655b59c3, 0x8f0ccc92, 0xffeff47d, 0x85845dd1,
   0x6fa87e4f, 0xfe2ce6e0, 0xa3014314, 0x4e0811a1,
   0xf7537e82, 0xbd3af235, 0x2ad7d2bb, 0xeb86d391]

/-- The md5 per-round shift table `s` (RFC 1321). -/
def md5S : List Nat :=
  [7, 12, 17, 22, 7, 12, 17, 22, 7, 12, 17, 22, 7, 12, 17, 22,
   5, 9, 14, 20, 5, 9, 14, 20, 5, 9, 14, 20, 5, 9, 14, 20,
   4, 11, 16, 23, 4, 11, 16, 23, 4, 11, 16, 23, 4, 11, 16, 23,
   6, 10, 15, 21, 6, 10, 15, 21, 6, 10, 15, 21, 6, 10, 15, 21]

/-- Round mixing function and message index for round `i` (RFC 1321). -/
def md5FG (i B C D : Nat) : Nat × Nat :=
  if i < 16 then ((B &&& C) ||| (not32 B &&& D), i)
  else if i < 32 then ((D &&& B) ||| (not32 D &&& C), (5 * i + 1) % 16)
  else if i < 48 then (B ^^^ C ^^^ D, (3 * i + 5) % 16)
  else (C ^^^ (B ||| not32 D), (7 * i) % 16)

/-- One md5 round applied to the running state `(A, B, C, D)`. -/
def md5Round (M : List Nat) (st : Nat × Nat × Nat × Nat) (i : Nat) :
    Nat × Nat × Nat × Nat :=
  let A := st.1; let B := st.2.1; let C := st.2.2.1; let D := st.2.2.2
  let FG := md5FG i B C D
  let F := add32 (add32 (add32 FG.1 A) (md5K.getD i 0)) (M.getD FG.2 0)
  (D, add32 B (rotl32 F (md5S.getD i 0)), B, C)

/-- Process one 64-byte chunk, folding the 64 rounds and re-adding the state. -/
def md5Chunk (st : Nat × Nat × Nat × Nat) (chunk : List Nat) :
    Nat × Nat × Nat × Nat :=
  let M := words16 16 chunk
  let r := (List.range 64).foldl (md5Round M) st
  (add32 st.1 r.1, add32 st.2.1 r.2.1, add32 st.2.2.1 r.2.2.1,
   add32 st.2.2.2 r.2.2.2)

/-- md5 padding: append `0x80`, zero bytes to 56 mod 64, then the 64-bit
little-endian bit length. -/
def md5Pad (msg : List Nat) : List Nat :=
  let z := (55 + 64 - msg.length % 64) % 64
  msg ++ [0x80] ++ List.replicate z 0 ++ leBytes ((8 * msg.length) % 2 ^ 64) 8

/-- The md5 digest (16 bytes) of a byte string, per RFC 1321. -/
def md5 (msg : List Nat) : List Nat :=
  let padded := md5Pad msg
  let st := (chunks64 padded.length padded).foldl md5Chunk
    (0x67452301, 0xefcdab89, 0x98badcfe, 0x10325476)
  leBytes st.1 4 ++ leBytes st.2.1 4 ++ leBytes st.2.2.1 4 ++ leBytes st.2.2.2 4

/-- Python `int.from_bytes(bytes, 'big')`. -/
def intFromBytesBE (bs : List Nat) : Nat := bs.foldl (fun acc b => acc * 256 + b) 0

/-- The base36 alphabet `string.digits + string.ascii_lowercase`. -/
def base36Alphabet : String := "0123456789abcdefghijklmnopqrstuvwxyz"

/-- `alphabet[i]` for the base36 alphabet. -/
def alphabetChar (i : Nat) : Char := base36Alphabet.data.getD i '0'

/-- The digit-accumulating loop of `base36_encode` (fuel-driven: `n / 36 < n`). -/
def base36Go : Nat → Nat → String → String
  | 0, _, acc => acc
  | fuel + 1, n, acc =>
    if n = 0 then acc
    else base36Go fuel (n / 36) (String.mk [alphabetChar (n % 36)] ++ acc)

/-- `utils.base36_encode`: converts an integer to a base36 string, with the
source's sign handling and single-digit early return. -/
def base36_encode (number : Int) : String :=
  let sign := if number < 0 then "-" else ""
  let n := number.natAbs
  if n < 36 then sign ++ String.mk [alphabetChar n]
  else sign ++ base36Go n n ""

/-- Quote character CPython `repr` picks for a string: `'` unless the string
contains `'` and no `"`. -/
def pyReprQuote (s : String) : Char :=
  if s.data.contains '\'' && !(s.data.contains '"') then '"' else '\''

/-- Lower-case hex digit. -/
def hexDigit (n : Nat) : Char := "0123456789abcdef".data.getD n '0'

/-- CPython `repr` escaping of one character given the chosen quote (faithful
for ASCII; non-ASCII printable characters are kept verbatim). -/
def pyEscapeChar (q c : Char) : List Char :=
  if c = '\\' ∨ c = q then ['\\', c]
  else if c = '\t' then ['\\', 't']
  else if c = '\n' then ['\\', 'n']
  else if c = '\r' then ['\\', 'r']
  else if c.toNat < 32 ∨ c.toNat = 127 then
    ['\\', 'x', hexDigit (c.toNat / 16 % 16), hexDigit (c.toNat % 16)]
  else [c]

/-- CPython `repr` of a string. -/
def pyReprStr (s : String) : String :=
  let q := pyReprQuote s
  String.mk (q :: (s.data.map (pyEscapeChar q)).flatten ++ [q])

/-- CPython `repr` of a tuple of strings (`()`, `('a',)`, `('a', 'b')`, ...). -/
def pyReprStrTuple (names : List String) : String :=
  match names with
  | [] => "()"
  | [x] => "(" ++ pyReprStr x ++ ",)"
  | xs => "(" ++ String.intercalate ", " (xs.map pyReprStr) ++ ")"

/-- Python `str((prompt_id, size, icon_names))`: the serialization
`hash_tuple_simple` applies to the id tuple built in `make_new`. -/
def serialize_id_tuple (prompt_id : String) (size : Nat) (names : List String) :
    String :=
  "(" ++ pyReprStr prompt_id ++ ", " ++ toString size ++ ", " ++
    pyReprStrTuple names ++ ")"

/-- UTF-8 encoding of one character (Python `str.encode()`). -/
def utf8Char (c : Char) : List Nat :=
  let n := c.toNat
  if n < 0x80 then [n]
  else if n < 0x800 then [0xC0 ||| (n >>> 6), 0x80 ||| (n &&& 0x3F)]
  else if n < 0x10000 then
    [0xE0 ||| (n >>> 12), 0x80 ||| ((n >>> 6) &&& 0x3F), 0x80 ||| (n &&& 0x3F)]
  else
    [0xF0 ||| (n >>> 18), 0x80 ||| ((n >>> 12) &&& 0x3F),
     0x80 ||| ((n >>> 6) &&& 0x3F), 0x80 ||| (n &&& 0x3F)]

/-- UTF-8 encoding of a string (Python `str.encode()`). -/
def utf8Encode (s : String) : List Nat := (s.data.map utf8Char).flatten

/-- `utils.hash_tuple_simple`, specialized to the `(prompt_id, size,
icon_names)` tuple shape it is called with in `BatchRequest.make_new`:
serialize with `str`, md5 the UTF-8 bytes, read the digest big-endian and
base36-encode it. -/
def hash_tuple_simple (prompt_id : String) (size : Nat) (names : List String) :
    String :=
  base36_encode (Int.ofNat
    (intFromBytesBE (md5 (utf8Encode (serialize_id_tuple prompt_id size names)))))

/-- Python's `<` on strings: code-point lexicographic comparison of the
character sequences. -/
def pyStrLt : List Char → List Char → Bool
  | _, [] => false
  | [], _ :: _ => true
  | a :: as, b :: bs => if a = b then pyStrLt as bs else decide (a < b)

/-- Python's `<=` on strings (`a <= b` iff not `b < a` for a total order). -/
def pyStrLe (a b : String) : Bool := !(pyStrLt b.data a.data)

/-- Python `sorted` on a list of strings: the ascending reordering under the
code-point lexicographic order. Modelled with `List.insertionSort`, which
returns the same list: the sorted permutation is unique for a total order
whose ties are identical elements. -/
def pySorted (l : List String) : List String :=
  l.insertionSort (fun a b => pyStrLe a b = true)

/-- The id computation of `BatchRequest.make_new` (lines 80–88 of
`batch_requests.py`), over the icon names of the given icons. -/
def make_new_id (prompt_id : String) (size : Nat) (icon_names_raw : List String)
    (all_icons : Bool) : String :=
  let icon_names := pySorted icon_names_raw
  if all_icons then prompt_id ++ "-" ++ toString size
  else if icon_names_raw.length ≤ 3 then
    prompt_id ++ "-" ++ toString size ++ "-" ++
      String.intercalate "_" (pySorted icon_names)
  else
    prompt_id ++ "-" ++ toString size ++ "-" ++
      hash_tuple_simple prompt_id size icon_names

/-! ## Data model (`icons.py`, `config.py`, `batch_requests.py`) -/

/-- `icons.Icon`: a named icon asset. -/
structure Icon where
  name : String
  path : String
deriving DecidableEq, Repr

/-- `config.Configuration`. The two float fields (`gpt_temperature`,
`gpt_top_p`) are not read by the core and are omitted (floating point is not
modelled). -/
structure Configuration where
  gpt_api_key : String
  gpt_model : String
  gpt_max_tokens : Nat := 300
deriving DecidableEq, Repr

/-- `batch_requests.BatchExecution`, field for field. -/
structure BatchExecution where
  when_started : String
  when_completed : String
  status : String
  input_file_id : String
  execution_id : String
  batch_id : String
deriving DecidableEq, Repr

/-- `batch_requests.BatchRequest`, field for field. `prompts` holds the raw
jsonl lines exactly as in the source. -/
structure BatchRequest where
  id : String
  prompt_id : String
  size : Nat
  icons : List Icon
  use_all_icons : Bool
  when_created : String
  author : String
  execution : List BatchExecution
  path : String
  prompts : List String := []
deriving DecidableEq, Repr

/-! ## JSON values and `json.dumps` (with its default separators and
`ensure_ascii=True`), needed by `finalize_prompts` and the payload file. -/

/-- A JSON value; Python dicts keep insertion order, so objects are ordered
association lists. Numbers are restricted to integers (the records the core
manipulates carry none of the float fields). -/
inductive Json where
  | null
  | bool (b : Bool)
  | num (n : Int)
  | str (s : String)
  | arr (elements : List Json)
  | obj (fields : List (String × Json))

/-- `\uXXXX` escape. -/
def uHex4 (n : Nat) : List Char :=
  ['\\', 'u', hexDigit (n / 4096 % 16), hexDigit (n / 256 % 16),
   hexDigit (n / 16 % 16), hexDigit (n % 16)]

/-- `ensure_ascii` escape of a code point, with surrogate pairs beyond the
basic multilingual plane. -/
def uEscape (n : Nat) : List Char :=
  if n < 0x10000 then uHex4 n
  else uHex4 (0xD800 + (n - 0x10000) / 0x400) ++ uHex4 (0xDC00 + (n - 0x10000) % 0x400)

/-- `json.dumps` escaping of one string character: characters outside
`0x20`–`0x7e` (and `"` , `\`) are escaped, as CPython's `ESCAPE_ASCII` does. -/
def jsonEscapeChar (c : Char) : List Char :=
  if c = '"' then ['\\', '"']
  else if c = '\\' then ['\\', '\\']
  else if c = '\n' then ['\\', 'n']
  else if c = '\t' then ['\\', 't']
  else if c = '\r' then ['\\', 'r']
  else if c.toNat = 8 then ['\\', 'b']
  else if c.toNat = 12 then ['\\', 'f']
  else if c.toNat < 32 ∨ 126 < c.toNat then uEscape c.toNat
  else [c]

/-- `json.dumps` rendering of a string literal. -/
def jsonQuote (s : String) : String :=
  String.mk ('"' :: (s.data.map jsonEscapeChar).flatten ++ ['"'])

/-- Decimal digits of a natural number (fuel-driven). -/
def natDigitsGo : Nat → Nat → List Char → List Char
  | 0, _, acc => acc
  | fuel + 1, n, acc =>
    if n = 0 then acc else natDigitsGo fuel (n / 10) (hexDigit (n % 10) :: acc)

/-- `json.dumps` rendering of an integer. -/
def dumpInt (n : Int) : String :=
  if n = 0 then "0"
  else (if n < 0 then "-" else "") ++ String.mk (natDigitsGo n.natAbs n.natAbs [])

mutual
/-- `json.dumps` with its defaults: separators `", "` and `": "`,
`ensure_ascii=True`. -/
def dumpJson : Json → String
  | .null => "null"
  | .bool true => "true"
  | .bool false => "false"
  | .num n => dumpInt n
  | .str s => jsonQuote s
  | .arr es => "[" ++ dumpList es ++ "]"
  | .obj fs => "\x7b" ++ dumpFields fs ++ "\x7d"

/-- `", ".join` over rendered array elements. -/
def dumpList : List Json → String
  | [] => ""
  | [e] => dumpJson e
  | e :: es => dumpJson e ++ ", " ++ dumpList es

/-- `", ".join` over rendered `key: value` pairs. -/
def dumpFields : List (String × Json) → String
  | [] => ""
  | [kv] => jsonQuote kv.1 ++ ": " ++ dumpJson kv.2
  | kv :: fs => jsonQuote kv.1 ++ ": " ++ dumpJson kv.2 ++ ", " ++ dumpFields fs
end

/-! ## Python dict operations (insertion-ordered association lists) -/

/-- `d[k] = v` on an insertion-ordered dict: overwrite in place if the key
exists, else append. -/
def pyDictInsert {α : Type} (m : List (String × α)) (k : String) (v : α) :
    List (String × α) :=
  if m.any (fun kv => kv.1 = k) then
    m.map (fun kv => if kv.1 = k then (k, v) else kv)
  else m ++ [(k, v)]

/-- A dict built by a comprehension `{key(x): x for x in xs}`. -/
def pyDictOfList {α : Type} (key : α → String) (xs : List α) :
    List (String × α) :=
  xs.foldl (fun m x => pyDictInsert m (key x) x) []

/-- `d.get(k)` / `d[k]`. -/
def pyDictGet? {α : Type} (m : List (String × α)) (k : String) : Option α :=
  (m.find? (fun kv => kv.1 = k)).map (·.2)

/-- `k in d`. -/
def pyDictContains {α : Type} (m : List (String × α)) (k : String) : Bool :=
  m.any (fun kv => kv.1 = k)

/-! ## `BatchRequest.make_new` and the payload file -/

/-- The file system: an association list from paths to file contents. -/
abbrev FS : Type := List (String × String)

/-- `os.path.exists`. -/
def fsExists (fs : FS) (p : String) : Bool :=
  fs.any (fun kv => kv.1 = p)

/-- Writing a file (`open(path, 'w')` then write): overwrite or create. -/
def fsWrite (fs : FS) (p c : String) : FS :=
  if fs.any (fun kv => kv.1 = p) then
    fs.map (fun kv => if kv.1 = p then (p, c) else kv)
  else fs ++ [(p, c)]

/-- `os.path.join` for a directory and a file name. -/
def osPathJoin (d f : String) : String :=
  if d.data.getLast? = some '/' then d ++ f else d ++ "/" ++ f

/-- `Path(p).with_suffix('.jsonl')` for a path ending in `.yaml`. -/
def jsonlPath (p : String) : String := p.dropRight 5 ++ ".jsonl"

/-- The jsonl line `populate_base_prompts` writes for one icon: the
`RawBatchPrompt` dataclass serialized in field order. `body` is the result of
`prompt.populate(icon.name, resize_and_get_base64(icon.path, size))`, passed
in as `bodyOf` (the prompt renderer and PIL are external collaborators). -/
def rawBatchPromptLine (custom_id : String) (body : Json) : String :=
  dumpJson (.obj [("custom_id", .str custom_id), ("body", body),
                  ("method", .str "POST"), ("url", .str "/v1/chat/completions")])

/-- The full contents `populate_base_prompts` writes: one line per icon, each
followed by a newline, with `custom_id = "{id}|{icon.name}"`. -/
def populateBasePromptsContent (id : String) (icons : List Icon)
    (bodyOf : Icon → Json) : String :=
  String.join (icons.map (fun icon =>
    rawBatchPromptLine (id ++ "|" ++ icon.name) (bodyOf icon) ++ "\n"))

/-- `BatchRequest.make_new` (lines 74–105 of `batch_requests.py`): compute the
id, refuse when the metadata file exists and `force` is false (returning
`None` and leaving the file system untouched), otherwise build the entity and
write the twin `.jsonl` payload file. `now` stands for
`datetime.now().isoformat()`. -/
def make_new (fs : FS) (icons : List Icon) (all_icons : Bool)
    (prompt_id : String) (author : String) (size : Nat)
    (base_directory : String) (force : Bool) (now : String)
    (bodyOf : Icon → Json) : Option BatchRequest × FS :=
  let id := make_new_id prompt_id size (icons.map (·.name)) all_icons
  let path := osPathJoin base_directory (id ++ ".yaml")
  if fsExists fs path && !force then (none, fs)
  else
    let new_request : BatchRequest :=
      { id := id, prompt_id := prompt_id, size := size, icons := icons,
        use_all_icons := all_icons, when_created := now, author := author,
        execution := [], path := path, prompts := [] }
    (some new_request,
     fsWrite fs (jsonlPath path) (populateBasePromptsContent id icons bodyOf))

/-! ## Execution history operations -/

/-- The `BatchExecution` appended by `start_new_execution`: status
`"starting"`, `execution_id` the stringified prior length. -/
def newExecution (now : String) (count : Nat) : BatchExecution :=
  { when_started := now, when_completed := "", status := "starting",
    input_file_id := "", batch_id := "", execution_id := toString count }

/-- One invocation of a mutating entity operation. Python mutates the
`BatchExecution` object passed by reference; a reference to an execution of
the entity is its index in the `execution` list (an index out of range models
a reference to a detached object, whose mutation leaves the list unchanged).
`saveExec` is `save_execution`, which only checks and persists. -/
inductive BatchOp where
  | startNew (now : String)
  | saveUpload (i : Nat) (input_file_id : String)
  | saveSubmit (i : Nat) (batch_id : String)
  | updateStatus (i : Nat) (status : String)
  | complete (i : Nat) (now : String)
  | saveExec (i : Nat)
deriving DecidableEq, Repr

/-- The state change of each entity operation of `batch_requests.py`
(lines 173–227); each also persists the entity, which does not change the
in-memory state. -/
def applyOp (br : BatchRequest) : BatchOp → BatchRequest
  | .startNew now =>
    { br with execution := br.execution ++ [newExecution now br.execution.length] }
  | .saveUpload i fid =>
    let f := fun e => { e with input_file_id := fid, status := "uploaded" }
    { br with execution := br.execution.modify f i }
  | .saveSubmit i bid =>
    let f := fun e => { e with batch_id := bid, status := "submitted" }
    { br with execution := br.execution.modify f i }
  | .updateStatus i st =>
    let f := fun e => { e with status := st }
    { br with execution := br.execution.modify f i }
  | .complete i now =>
    let f := fun e => { e with when_completed := now, status := "completed" }
    { br with execution := br.execution.modify f i }
  | .saveExec _ => br

/-- A sequence of entity operations applied in order. -/
def applyOps (br : BatchRequest) (ops : List BatchOp) : BatchRequest :=
  ops.foldl applyOp br

/-- The operation is applied to the entity's current last execution (the
documented contract of the mutating operations; `start_new_execution` has no
precondition). -/
def targetsLast (br : BatchRequest) : BatchOp → Bool
  | .startNew _ => true
  | .saveUpload i _ => i + 1 = br.execution.length
  | .saveSubmit i _ => i + 1 = br.execution.length
  | .updateStatus i _ => i + 1 = br.execution.length
  | .complete i _ => i + 1 = br.execution.length
  | .saveExec i => i + 1 = br.execution.length

/-- Every operation of the sequence targets the last execution of the state
it is applied to. -/
def validSeq : BatchRequest → List BatchOp → Bool
  | _, [] => true
  | br, op :: ops => targetsLast br op && validSeq (applyOp br op) ops

/-! ## Persistence (`save`) and the repository
(`load_all_batch_requests`, `load_batch_request`) -/

/-- The structured content of the metadata yaml file written by
`BatchRequest.save`: all fields except the popped `path` and `prompts`;
`icons` is popped when `use_all_icons` and otherwise reduced to the names. -/
structure SavedBatchRequest where
  id : String
  prompt_id : String
  size : Nat
  icons : Option (List String)
  use_all_icons : Bool
  when_created : String
  author : String
  execution : List BatchExecution
deriving DecidableEq, Repr

/-- `BatchRequest.save` (lines 134–149): the record serialized to the yaml
file (`yaml.safe_dump`/`safe_load` round-tripping of the record is the
identity in this model). -/
def save_record (br : BatchRequest) : SavedBatchRequest :=
  { id := br.id, prompt_id := br.prompt_id, size := br.size,
    icons := if br.use_all_icons then none else some (br.icons.map (·.name)),
    use_all_icons := br.use_all_icons, when_created := br.when_created,
    author := br.author, execution := br.execution }

/-- `save_execution` (lines 219–227): raises unless the execution list is
nonempty and the argument equals (`==` on dataclasses is structural equality)
its last element; on success persists the entity and returns its serialized
record. -/
def save_execution (br : BatchRequest) (e : BatchExecution) :
    Except String SavedBatchRequest :=
  if br.execution.length = 0 then .error "No execution to save to."
  else if br.execution.getLast? ≠ some e then
    .error "Execution does not match the last execution."
  else .ok (save_record br)

/-- The failure raised by `load_all_batch_requests`: the `ValueError` for an
icon name absent from the catalog, or the `KeyError` were the `icons` key
missing from an explicit-selection record. -/
inductive LoadError where
  | unknownIcon (name : String)
  | missingIcons
deriving DecidableEq, Repr

/-- One iteration of the icon-resolution loop in `load_all_batch_requests`
(lines 244–249): a name absent from the catalog dict raises the
`ValueError`. -/
def lookupIconExcept (catalog : List Icon) (n : String) : Except LoadError Icon :=
  match pyDictGet? (pyDictOfList (fun ic => ic.name) catalog) n with
  | none => .error (.unknownIcon n)
  | some ic => .ok ic

/-- Loading one metadata record (the body of the loop in
`load_all_batch_requests`, lines 237–251): expand `use_all_icons` to the full
catalog, otherwise resolve every stored icon name through the catalog dict,
raising `unknownIcon` at the first absent name. `prompts` is left at its
default `[]` and `path` is recomputed from the directory and file name. -/
def load_one (catalog : List Icon) (search_directory file : String)
    (raw : SavedBatchRequest) : Except LoadError BatchRequest :=
  let search_icons := pyDictOfList (·.name) catalog
  if raw.use_all_icons then
    .ok { id := raw.id, prompt_id := raw.prompt_id, size := raw.size,
          icons := catalog, use_all_icons := raw.use_all_icons,
          when_created := raw.when_created, author := raw.author,
          execution := raw.execution,
          path := osPathJoin search_directory file, prompts := [] }
  else
    match raw.icons with
    | none => .error .missingIcons
    | some names => do
      let icons ← names.mapM (lookupIconExcept catalog)
      .ok { id := raw.id, prompt_id := raw.prompt_id, size := raw.size,
            icons := icons, use_all_icons := raw.use_all_icons,
            when_created := raw.when_created, author := raw.author,
            execution := raw.execution,
            path := osPathJoin search_directory file, prompts := [] }

/-- `load_all_batch_requests` (lines 230–252) over a directory listing: the
metadata files (name and parsed yaml content) in listing order. The source's
`.yaml`-extension filter is implicit in the model: the listing holds exactly
the metadata files. -/
def load_all_batch_requests (catalog : List Icon) (search_directory : String)
    (files : List (String × SavedBatchRequest)) :
    Except LoadError (List BatchRequest) :=
  files.mapM (fun fr => load_one catalog search_directory fr.1 fr.2)

/-- Python `key.startswith(query)` on strings. -/
def pyStartsWith (s q : String) : Bool := q.data.isPrefixOf s.data

/-- `utils.partial_dict_key_match` (lines 52–56 of `utils.py`): the keys of
the dict that start with the given key, in dict order. -/
def partial_dict_key_match {α : Type} (key : String)
    (dictionary : List (String × α)) : List String :=
  (dictionary.filter (fun kv => pyStartsWith kv.1 key)).map (·.1)

/-- The resolution logic of `load_batch_request` (lines 259–271) over the
loaded requests: exact dict hit first, else a unique prefix match, else
`None` (the `difflib` suggestions only feed the log message). -/
def resolve_requests (requests : List BatchRequest) (batch_id : String) :
    Option BatchRequest :=
  let search_requests := pyDictOfList (·.id) requests
  if pyDictContains search_requests batch_id then
    pyDictGet? search_requests batch_id
  else
    match partial_dict_key_match batch_id search_requests with
    | [k] => pyDictGet? search_requests k
    | _ => none

/-- `load_batch_request` (lines 254–271): load every metadata file of the
directory, then resolve the query against the loaded records. -/
def load_batch_request (catalog : List Icon) (search_directory : String)
    (files : List (String × SavedBatchRequest)) (batch_id : String) :
    Except LoadError (Option BatchRequest) :=
  (load_all_batch_requests catalog search_directory files).map
    (fun rs => resolve_requests rs batch_id)

/-! ## `finalize_prompts` -/

/-- One loop iteration of `finalize_prompts` (lines 126–131) on a parsed
record: set `prompt_dict['body']['model']` and append `"|{execution_id}"` to
`prompt_dict['custom_id']`. `none` models the `KeyError`/`TypeError` Python
would raise on a record without a string `custom_id` and a dict `body`. -/
def finalizeRecord (gpt_model execution_id : String) : Json → Option Json
  | .obj fields =>
    match pyDictGet? fields "body", pyDictGet? fields "custom_id" with
    | some (.obj bodyFields), some (.str cid) =>
      some (.obj (pyDictInsert
        (pyDictInsert fields "body"
          (.obj (pyDictInsert bodyFields "model" (.str gpt_model))))
        "custom_id" (.str (cid ++ "|" ++ execution_id))))
    | _, _ => none
  | _ => none

/-- Python `"\n".join`. -/
def joinLines : List String → String
  | [] => ""
  | [l] => l
  | l :: ls => l ++ "\n" ++ joinLines ls

/-- `finalize_prompts` (lines 122–132): parse each stored line, transform it,
and join the re-serialized records with newlines. The stored lines are given
in parsed form (`json.loads` of a dumped record is the record). -/
def finalize_prompts (prompts : List Json) (execution_id : String)
    (open_ai_config : Configuration) : Option String :=
  (prompts.mapM (finalizeRecord open_ai_config.gpt_model execution_id)).map
    (fun js => joinLines (js.map dumpJson))

/-- The number of lines of a newline-joined string: one more than the number
of newline characters. -/
def countLines (s : String) : Nat := s.data.count '\n' + 1

/-- A concrete entity used by the concrete-input theorems. -/
def mkExampleRequest (id : String) (ex : List BatchExecution) : BatchRequest :=
  { id := id, prompt_id := "p1", size := 256, icons := [], use_all_icons := true,
    when_created := "2024-01-01T00:00:00", author := "alice", execution := ex,
    path := "batch_requests/" ++ id ++ ".yaml", prompts := [] }

/-- A concrete icon catalog used by the concrete-input theorems. -/
def exampleCatalog : List Icon :=
  [{ name := "axe", path := "icons/axe.png" },
   { name := "bow", path := "icons/bow.png" }]

/-- A concrete explicit-selection entity consistent with `exampleCatalog`. -/
def exampleExplicitRequest : BatchRequest :=
  { id := "p1-256-axe", prompt_id := "p1", size := 256,
    icons := [{ name := "axe", path := "icons/axe.png" }],
    use_all_icons := false, when_created := "2024-01-01T00:00:00",
    author := "alice", execution := [newExecution "t0" 0],
    path := "batch_requests/p1-256-axe.yaml", prompts := [] }

/-- A concrete metadata record whose explicit selection names an icon absent
from `exampleCatalog`. -/
def exampleBadSaved : SavedBatchRequest :=
  { id := "p1-256-bad", prompt_id := "p1", size := 256,
    icons := some ["ghost"], use_all_icons := false,
    when_created := "2024-01-01T00:00:00", author := "alice", execution := [] }

/-! ## Properties of the string comparison and of Python `sorted` -/

theorem pyStrLt_asymm (l m : List Char) (h : pyStrLt l m = true) :
    pyStrLt m l = false := by
  induction l generalizing m with
  | nil =>
    cases m with
    | nil => simp [pyStrLt] at h
    | cons b bs => simp [pyStrLt]
  | cons a as ih =>
    cases m with
    | nil => simp [pyStrLt] at h
    | cons b bs =>
      by_cases hab : a = b
      · subst hab
        simp only [pyStrLt, if_pos rfl] at h ⊢
        exact ih bs h
      · have hba : b ≠ a := fun e => hab e.symm
        simp only [pyStrLt, if_neg hab, if_neg hba, decide_eq_true_eq] at h ⊢
        exact decide_eq_false (not_lt_of_lt h)

theorem pyStrLt_trichotomy (l m : List Char) :
    pyStrLt l m = true ∨ l = m ∨ pyStrLt m l = true := by
  induction l generalizing m with
  | nil =>
    cases m with
    | nil => right; left; rfl
    | cons b bs => left; simp [pyStrLt]
  | cons a as ih =>
    cases m with
    | nil => right; right; simp [pyStrLt]
    | cons b bs =>
      by_cases hab : a = b
      · subst hab
        rcases ih bs with h | h | h
        · left; simpa [pyStrLt] using h
        · right; left; rw [h]
        · right; right; simpa [pyStrLt] using h
      · have hba : b ≠ a := fun e => hab e.symm
        rcases lt_or_gt_of_ne hab with h | h
        · left; simp [pyStrLt, hab, h]
        · right; right; simp [pyStrLt, hba, h]

theorem pyStrLt_trans (l m n : List Char) (h1 : pyStrLt l m = true)
    (h2 : pyStrLt m n = true) : pyStrLt l n = true := by
  induction l generalizing m n with
  | nil =>
    cases n with
    | nil =>
      cases m with
      | nil => exact h1
      | cons b bs => simp [pyStrLt] at h2
    | cons c cs => simp [pyStrLt]
  | cons a as ih =>
    cases m with
    | nil => simp [pyStrLt] at h1
    | cons b bs =>
      cases n with
      | nil => simp [pyStrLt] at h2
      | cons c cs =>
        by_cases hab : a = b <;> by_cases hbc : b = c
        · subst hab; subst hbc
          simp only [pyStrLt, if_pos rfl] at h1 h2 ⊢
          exact ih bs cs h1 h2
        · subst hab
          simp only [pyStrLt, if_neg hbc] at h2 ⊢
          exact h2
        · subst hbc
          simp only [pyStrLt, if_neg hab] at h1 ⊢
          exact h1
        · simp only [pyStrLt, if_neg hab, if_neg hbc, decide_eq_true_eq] at h1 h2
          have hac : a < c := lt_trans h1 h2
          have : a ≠ c := ne_of_lt hac
          simp [pyStrLt, this, hac]

theorem pyStrLe_total (a b : String) : pyStrLe a b = true ∨ pyStrLe b a = true := by
  unfold pyStrLe
  by_cases h : pyStrLt b.data a.data = true
  · right; simp [pyStrLt_asymm _ _ h]
  · left; simp only [Bool.not_eq_true] at h; simp [h]

theorem pyStrLe_trans (a b c : String) (h1 : pyStrLe a b = true)
    (h2 : pyStrLe b c = true) : pyStrLe a c = true := by
  unfold pyStrLe at h1 h2 ⊢
  simp only [Bool.not_eq_true'] at h1 h2 ⊢
  by_contra hca
  simp only [Bool.not_eq_false] at hca
  rcases pyStrLt_trichotomy a.data b.data with h | h | h
  · have := pyStrLt_trans c.data a.data b.data hca h
    rw [this] at h2; cases h2
  · rw [h] at hca; rw [hca] at h2; cases h2
  · rw [h] at h1; cases h1

theorem pyStrLe_antisymm (a b : String) (h1 : pyStrLe a b = true)
    (h2 : pyStrLe b a = true) : a = b := by
  unfold pyStrLe at h1 h2
  simp only [Bool.not_eq_true'] at h1 h2
  rcases pyStrLt_trichotomy a.data b.data with h | h | h
  · rw [h] at h2; cases h2
  · cases a; cases b; exact congrArg String.mk (by simpa using h)
  · rw [h] at h1; cases h1

theorem pySorted_sorted (l : List String) :
    (pySorted l).Sorted (fun a b => pyStrLe a b = true) := by
  have tot : IsTotal String (fun a b => pyStrLe a b = true) := ⟨pyStrLe_total⟩
  have tra : IsTrans String (fun a b => pyStrLe a b = true) :=
    ⟨fun a b c => pyStrLe_trans a b c⟩
  exact List.sorted_insertionSort _ l

theorem pySorted_perm (l : List String) : (pySorted l).Perm l :=
  List.perm_insertionSort _ l

theorem pySorted_eq_of_perm (l1 l2 : List String) (h : l1.Perm l2) :
    pySorted l1 = pySorted l2 := by
  have anti : IsAntisymm String (fun a b => pyStrLe a b = true) :=
    ⟨fun a b => pyStrLe_antisymm a b⟩
  exact List.eq_of_perm_of_sorted
    ((pySorted_perm l1).trans (h.trans (pySorted_perm l2).symm))
    (pySorted_sorted l1) (pySorted_sorted l2)

theorem pySorted_idem (l : List String) : pySorted (pySorted l) = pySorted l :=
  List.Sorted.insertionSort_eq (pySorted_sorted l)

/-! ## Claim C1 -/

/-- C1: the fingerprint is deterministic (it is a pure function of
`(promptId, size, useAllIcons, iconNames)`, built from an md5 digest, not a
process-seeded hash) and order-insensitive: on any permutation of the same
icon names it yields the identical id. -/
theorem fingerprint_deterministic_and_order_insensitive
    (prompt_id : String) (size : Nat) (all_icons : Bool)
    (l1 l2 : List String) (h : l1.Perm l2) :
    make_new_id prompt_id size l1 all_icons = make_new_id prompt_id size l1 all_icons ∧
    make_new_id prompt_id size l1 all_icons = make_new_id prompt_id size l2 all_icons := by
  refine ⟨rfl, ?_⟩
  simp only [make_new_id]
  rw [pySorted_eq_of_perm l1 l2 h, h.length_eq]

/-- Witness for C1 at a concrete permutation. -/
theorem fingerprint_deterministic_and_order_insensitive_witness :
    (["bow", "axe", "cat", "dog"] : List String).Perm ["axe", "bow", "dog", "cat"] ∧
    make_new_id "p1" 512 ["bow", "axe", "cat", "dog"] false =
      make_new_id "p1" 512 ["axe", "bow", "dog", "cat"] false :=
  ⟨by decide,
   (fingerprint_deterministic_and_order_insensitive "p1" 512 false
      ["bow", "axe", "cat", "dog"] ["axe", "bow", "dog", "cat"] (by decide)).2⟩

/-! ## Claim C2 -/

/-- C2: the id is `"{promptId}-{size}"` when `useAllIcons`, the sorted
underscore-joined names when at most 3 icons are given, and otherwise
`"{promptId}-{size}-"` followed by the deterministic base36 md5 content hash
of the sorted tuple of icon names (keyed, as at the call site, together with
the prompt id and size). -/
theorem make_new_id_spec (prompt_id : String) (size : Nat)
    (names : List String) (all_icons : Bool) :
    (all_icons = true →
      make_new_id prompt_id size names all_icons =
        prompt_id ++ "-" ++ toString size) ∧
    (all_icons = false → names.length ≤ 3 →
      make_new_id prompt_id size names all_icons =
        prompt_id ++ "-" ++ toString size ++ "-" ++
          String.intercalate "_" (pySorted names)) ∧
    (all_icons = false → 3 < names.length →
      make_new_id prompt_id size names all_icons =
        prompt_id ++ "-" ++ toString size ++ "-" ++
          hash_tuple_simple prompt_id size (pySorted names)) := by
  refine ⟨?_, ?_, ?_⟩
  · intro h; subst h; simp [make_new_id]
  · intro h hlen; subst h
    simp only [make_new_id, if_neg (Bool.false_ne_true), if_pos hlen]
    rw [pySorted_idem]
  · intro h hlen; subst h
    have : ¬ names.length ≤ 3 := not_le_of_lt hlen
    simp [make_new_id, this]

/-- Witness for C2, exercising the small-set branch at a concrete input
(together with the refusal of the hypothesis of the all-icons branch). -/
theorem make_new_id_spec_witness :
    (["bow", "axe"] : List String).length ≤ 3 ∧
    make_new_id "p1" 256 ["bow", "axe"] false = "p1-256-axe_bow" :=
  ⟨by decide, by
    rw [(make_new_id_spec "p1" 256 ["bow", "axe"] false).2.1 rfl (by decide)]
    decide⟩

/-! ## Claim C5 -/

/-- C5: when the metadata file for the computed id already exists and `force`
is false, `make_new` returns no entity and leaves the file system exactly as
it was — no file is written or modified. -/
theorem make_new_refuses_existing (fs : FS) (icons : List Icon)
    (all_icons : Bool) (prompt_id author : String) (size : Nat)
    (base_directory now : String) (bodyOf : Icon → Json)
    (h : fsExists fs (osPathJoin base_directory
      (make_new_id prompt_id size (icons.map (·.name)) all_icons ++ ".yaml"))
      = true) :
    make_new fs icons all_icons prompt_id author size base_directory false now
      bodyOf = (none, fs) := by
  simp [make_new, h]

/-- Witness for C5 at a concrete file system holding the metadata file. -/
theorem make_new_refuses_existing_witness :
    fsExists [("batch_requests/p1-256.yaml", "m")]
      (osPathJoin "batch_requests"
        (make_new_id "p1" 256 (([] : List Icon).map (·.name)) true ++ ".yaml"))
      = true ∧
    make_new [("batch_requests/p1-256.yaml", "m")] [] true "p1" "alice" 256
      "batch_requests" false "t0" (fun _ => Json.null)
      = (none, [("batch_requests/p1-256.yaml", "m")]) :=
  ⟨by decide,
   make_new_refuses_existing [("batch_requests/p1-256.yaml", "m")] [] true
     "p1" "alice" 256 "batch_requests" "t0" (fun _ => Json.null) (by decide)⟩

/-! ## Claim C6 -/

theorem applyOp_length_le (br : BatchRequest) (op : BatchOp) :
    br.execution.length ≤ (applyOp br op).execution.length := by
  cases op <;> simp [applyOp]

theorem applyOps_length_le (br : BatchRequest) (ops : List BatchOp) :
    br.execution.length ≤ (applyOps br ops).execution.length := by
  induction ops generalizing br with
  | nil => exact le_refl _
  | cons op ops ih =>
    exact le_trans (applyOp_length_le br op) (ih (applyOp br op))

theorem applyOp_stable (br : BatchRequest) (op : BatchOp) (i : Nat)
    (hv : targetsLast br op = true) (hi : i + 1 < br.execution.length) :
    (applyOp br op).execution[i]? = br.execution[i]? := by
  cases op with
  | startNew now =>
    simp only [applyOp]
    rw [List.getElem?_append_left (by omega)]
  | saveUpload j fid =>
    simp only [targetsLast, decide_eq_true_eq] at hv
    simp only [applyOp]
    exact List.getElem?_modify_ne _ _ (by omega)
  | saveSubmit j bid =>
    simp only [targetsLast, decide_eq_true_eq] at hv
    simp only [applyOp]
    exact List.getElem?_modify_ne _ _ (by omega)
  | updateStatus j st =>
    simp only [targetsLast, decide_eq_true_eq] at hv
    simp only [applyOp]
    exact List.getElem?_modify_ne _ _ (by omega)
  | complete j now =>
    simp only [targetsLast, decide_eq_true_eq] at hv
    simp only [applyOp]
    exact List.getElem?_modify_ne _ _ (by omega)
  | saveExec j => rfl

theorem applyOps_stable (br : BatchRequest) (ops : List BatchOp) (i : Nat)
    (hv : validSeq br ops = true) (hi : i + 1 < br.execution.length) :
    (applyOps br ops).execution[i]? = br.execution[i]? := by
  induction ops generalizing br with
  | nil => rfl
  | cons op ops ih =>
    simp only [validSeq, Bool.and_eq_true] at hv
    have hstep := applyOp_stable br op i hv.1 hi
    have hi' : i + 1 < (applyOp br op).execution.length :=
      lt_of_lt_of_le hi (applyOp_length_le br op)
    have : applyOps br (op :: ops) = applyOps (applyOp br op) ops := rfl
    rw [this, ih (applyOp br op) hv.2 hi', hstep]

/-- C6 counterexample: the claim quantifies over any sequence of the defined
operations, but `save_upload` applied to a stale reference — an execution
that is no longer the last element — mutates that earlier element. After
`start_new_execution; start_new_execution`, applying `save_upload` to the
first execution (index 0 of a 2-element history) changes element 0, which is
not the last. -/
theorem history_mutation_counterexample :
    (applyOps (mkExampleRequest "c6" []) [.startNew "t0", .startNew "t1"]).execution.length = 2 ∧
    (applyOp (applyOps (mkExampleRequest "c6" []) [.startNew "t0", .startNew "t1"])
        (.saveUpload 0 "f1")).execution[0]? ≠
      (applyOps (mkExampleRequest "c6" []) [.startNew "t0", .startNew "t1"]).execution[0]? := by
  decide

/-- C6 amended: for sequences whose mutating operations are applied to the
current last execution (the operations' documented contract, and how the
orchestrator calls them), the history length is non-decreasing — in fact for
arbitrary sequences — `start_new_execution` appends exactly one record with
status `"starting"` and execution index the prior length, and no element
other than the last ever changes. -/
theorem history_append_only (br : BatchRequest) (ops : List BatchOp)
    (now : String) (i : Nat) (hvalid : validSeq br ops = true)
    (hi : i + 1 < br.execution.length) :
    (∀ ops' : List BatchOp,
      br.execution.length ≤ (applyOps br ops').execution.length) ∧
    (∃ e, (applyOp br (.startNew now)).execution = br.execution ++ [e] ∧
      e.status = "starting" ∧ e.execution_id = toString br.execution.length) ∧
    (applyOps br ops).execution[i]? = br.execution[i]? :=
  ⟨fun ops' => applyOps_length_le br ops',
   ⟨newExecution now br.execution.length, rfl, rfl, rfl⟩,
   applyOps_stable br ops i hvalid hi⟩

/-- Witness for the amended C6 at a concrete valid sequence. -/
theorem history_append_only_witness :
    validSeq (mkExampleRequest "c6w" [newExecution "t0" 0, newExecution "t1" 1])
      [.saveUpload 1 "f", .startNew "t2", .updateStatus 2 "running"] = true ∧
    0 + 1 < (mkExampleRequest "c6w"
      [newExecution "t0" 0, newExecution "t1" 1]).execution.length ∧
    ((∀ ops' : List BatchOp,
        (mkExampleRequest "c6w" [newExecution "t0" 0, newExecution "t1" 1]).execution.length ≤
          (applyOps (mkExampleRequest "c6w" [newExecution "t0" 0, newExecution "t1" 1]) ops').execution.length) ∧
      (∃ e, (applyOp (mkExampleRequest "c6w" [newExecution "t0" 0, newExecution "t1" 1])
          (.startNew "t9")).execution =
          (mkExampleRequest "c6w" [newExecution "t0" 0, newExecution "t1" 1]).execution ++ [e] ∧
        e.status = "starting" ∧
        e.execution_id = toString (mkExampleRequest "c6w"
          [newExecution "t0" 0, newExecution "t1" 1]).execution.length) ∧
      (applyOps (mkExampleRequest "c6w" [newExecution "t0" 0, newExecution "t1" 1])
          [.saveUpload 1 "f", .startNew "t2", .updateStatus 2 "running"]).execution[0]? =
        (mkExampleRequest "c6w" [newExecution "t0" 0, newExecution "t1" 1]).execution[0]?) :=
  ⟨by decide, by decide,
   history_append_only (mkExampleRequest "c6w" [newExecution "t0" 0, newExecution "t1" 1])
     [.saveUpload 1 "f", .startNew "t2", .updateStatus 2 "running"] "t9" 0
     (by decide) (by decide)⟩

/-! ## Claim C7 -/

/-- C7: `save_execution` fails exactly when the execution list is empty or
the given execution is not the (structurally) identical last element; when it
is the last element, the entity is persisted without error. -/
theorem save_execution_spec (br : BatchRequest) (e : BatchExecution) :
    ((∃ msg, save_execution br e = .error msg) ↔
      br.execution = [] ∨ br.execution.getLast? ≠ some e) ∧
    (br.execution.getLast? = some e →
      save_execution br e = .ok (save_record br)) := by
  unfold save_execution
  by_cases h0 : br.execution.length = 0
  · have hnil : br.execution = [] := List.length_eq_zero.mp h0
    constructor
    · simp [h0, hnil]
    · intro hl; rw [hnil] at hl; simp at hl
  · by_cases hlast : br.execution.getLast? = some e
    · have hnenil : br.execution ≠ [] := fun hh => h0 (by simp [hh])
      constructor
      · simp [h0, hlast, hnenil]
      · intro _; simp [h0, hlast]
    · constructor
      · simp [h0, hlast]
      · intro hl; exact absurd hl hlast

/-- Witness for C7: saving the genuine last execution succeeds. -/
theorem save_execution_spec_witness :
    (mkExampleRequest "c7" [newExecution "t0" 0]).execution.getLast?
      = some (newExecution "t0" 0) ∧
    save_execution (mkExampleRequest "c7" [newExecution "t0" 0])
        (newExecution "t0" 0)
      = .ok (save_record (mkExampleRequest "c7" [newExecution "t0" 0])) :=
  ⟨by decide,
   (save_execution_spec (mkExampleRequest "c7" [newExecution "t0" 0])
     (newExecution "t0" 0)).2 (by decide)⟩

/-! ## Python dict lemmas -/

theorem pyDictInsert_keys {α : Type} (m : List (String × α)) (k' : String) (v : α) :
    (pyDictInsert m k' v).map Prod.fst =
      if m.any (fun kv => kv.1 = k') then m.map Prod.fst
      else m.map Prod.fst ++ [k'] := by
  unfold pyDictInsert
  by_cases h : m.any (fun kv => kv.1 = k') = true
  · rw [if_pos h, if_pos h, List.map_map]
    apply List.map_congr_left
    intro kv _
    by_cases hk : kv.1 = k'
    · simp [hk]
    · simp [hk]
  · rw [if_neg h, if_neg h]
    simp

theorem pyDictContains_insert {α : Type} (m : List (String × α)) (k' k : String)
    (v : α) :
    pyDictContains (pyDictInsert m k' v) k =
      (pyDictContains m k || decide (k' = k)) := by
  have hany : ∀ (l : List (String × α)),
      pyDictContains l k = (l.map Prod.fst).any (fun s => s = k) := by
    intro l
    induction l with
    | nil => rfl
    | cons kv l ih => simp [pyDictContains, List.any_cons] at ih ⊢; rw [ih]
  rw [hany, pyDictInsert_keys m k' v]
  by_cases h : m.any (fun kv => kv.1 = k') = true
  · rw [if_pos h, ← hany]
    by_cases hk : k' = k
    · subst hk
      have : pyDictContains m k' = true := h
      simp [this]
    · simp [hk]
  · rw [if_neg h]
    simp [← hany]

theorem pyDictOfList_contains {α : Type} (key : α → String) (xs : List α)
    (k : String) :
    pyDictContains (pyDictOfList key xs) k = xs.any (fun x => key x = k) := by
  have aux : ∀ (xs : List α) (acc : List (String × α)),
      pyDictContains (xs.foldl (fun m x => pyDictInsert m (key x) x) acc) k
        = (pyDictContains acc k || xs.any (fun x => key x = k)) := by
    intro xs
    induction xs with
    | nil => intro acc; simp
    | cons x xs ih =>
      intro acc
      rw [List.foldl_cons, ih, pyDictContains_insert]
      simp [Bool.or_assoc]
  rw [pyDictOfList, aux]
  simp [pyDictContains]

theorem pyDictOfList_eq_map {α : Type} (key : α → String) (xs : List α)
    (hnd : (xs.map key).Nodup) :
    pyDictOfList key xs = xs.map (fun x => (key x, x)) := by
  have aux : ∀ (xs : List α) (acc : List (String × α)),
      (acc.map Prod.fst ++ xs.map key).Nodup →
      xs.foldl (fun m x => pyDictInsert m (key x) x) acc
        = acc ++ xs.map (fun x => (key x, x)) := by
    intro xs
    induction xs with
    | nil => intro acc _; simp
    | cons x xs ih =>
      intro acc h
      have hx : ¬ key x ∈ acc.map Prod.fst := by
        have hdis := (List.nodup_append.mp h).2.2
        intro hmem
        exact hdis hmem (by simp)
      have hnotany : ¬ acc.any (fun kv => kv.1 = key x) = true := by
        intro hany
        rcases List.any_eq_true.mp hany with ⟨kv, hkv, hk⟩
        exact hx (by
          rw [← of_decide_eq_true hk]
          exact List.mem_map_of_mem Prod.fst hkv)
      have hins : pyDictInsert acc (key x) x = acc ++ [(key x, x)] := by
        unfold pyDictInsert
        rw [if_neg hnotany]
      rw [List.foldl_cons, hins, ih (acc ++ [(key x, x)]) (by
        simpa [List.append_assoc] using h)]
      simp
  rw [pyDictOfList, aux xs [] (by simpa using hnd)]
  simp

theorem find?_map_key {α : Type} (key : α → String) (r : α) :
    ∀ (xs : List α), (xs.map key).Nodup → r ∈ xs →
      (xs.map (fun x => (key x, x))).find? (fun kv => kv.1 = key r)
        = some (key r, r) := by
  intro xs
  induction xs with
  | nil => intro _ hr; cases hr
  | cons x xs ih =>
    intro hnd hr
    rcases List.mem_cons.mp hr with rfl | hr'
    · simp [List.find?]
    · have hsplit : key x ∉ xs.map key ∧ (xs.map key).Nodup := by
        rw [List.map_cons, List.nodup_cons] at hnd; exact hnd
      have hne : ¬ (key x = key r) := by
        intro he
        exact hsplit.1 (he ▸ List.mem_map_of_mem key hr')
      have hnd' : (xs.map key).Nodup := hsplit.2
      simp only [List.map_cons, List.find?]
      rw [decide_eq_false hne]
      exact ih hnd' hr'

theorem pyDictOfList_get_mem {α : Type} (key : α → String) (xs : List α)
    (hnd : (xs.map key).Nodup) (r : α) (hr : r ∈ xs) :
    pyDictGet? (pyDictOfList key xs) (key r) = some r := by
  rw [pyDictOfList_eq_map key xs hnd]
  unfold pyDictGet?
  rw [find?_map_key key r xs hnd hr]
  rfl

theorem partial_dict_key_match_map {α : Type} (key : α → String) (xs : List α)
    (q : String) :
    partial_dict_key_match q (xs.map (fun x => (key x, x)))
      = (xs.filter (fun x => pyStartsWith (key x) q)).map key := by
  unfold partial_dict_key_match
  rw [List.filter_map, List.map_map]
  rfl

/-! ## Claim C3 -/

/-- C3: resolution precedence over a repository with distinct ids — an exact
id match wins (even when the query is also a proper prefix of another id); a
unique prefix match is returned otherwise; zero or more-than-one prefix
matches fall through to failure (`None`). -/
theorem resolution_precedence (requests : List BatchRequest) (q : String)
    (hnd : (requests.map (·.id)).Nodup) :
    (∀ r ∈ requests, r.id = q → resolve_requests requests q = some r) ∧
    ((∀ r ∈ requests, r.id ≠ q) →
      ∀ r ∈ requests,
        requests.filter (fun r' => pyStartsWith r'.id q) = [r] →
        resolve_requests requests q = some r) ∧
    ((∀ r ∈ requests, r.id ≠ q) →
      (requests.filter (fun r' => pyStartsWith r'.id q)).length ≠ 1 →
      resolve_requests requests q = none) := by
  have hre : ∀ qq, resolve_requests requests qq =
      (if pyDictContains (pyDictOfList (fun r => r.id) requests) qq then
        pyDictGet? (pyDictOfList (fun r => r.id) requests) qq
      else
        match partial_dict_key_match qq (pyDictOfList (fun r => r.id) requests) with
        | [k] => pyDictGet? (pyDictOfList (fun r => r.id) requests) k
        | _ => none) := fun _ => rfl
  refine ⟨?_, ?_, ?_⟩
  · intro r hr hid
    have hcont : pyDictContains (pyDictOfList (fun r => r.id) requests) q = true := by
      rw [pyDictOfList_contains]
      exact List.any_eq_true.mpr ⟨r, hr, by simp [hid]⟩
    have hget : pyDictGet? (pyDictOfList (fun r => r.id) requests) q = some r := by
      rw [← hid]
      exact pyDictOfList_get_mem (fun r => r.id) requests hnd r hr
    rw [hre q, if_pos hcont]
    exact hget
  · intro hnoex r hr hfilter
    have hcont : pyDictContains (pyDictOfList (fun r => r.id) requests) q = false := by
      rw [pyDictOfList_contains]
      simp only [List.any_eq_false]
      intro x hx
      simp [hnoex x hx]
    have hpart : partial_dict_key_match q (pyDictOfList (fun r => r.id) requests)
        = [r.id] := by
      rw [pyDictOfList_eq_map (fun r => r.id) requests hnd,
        partial_dict_key_match_map (fun r => r.id) requests q, hfilter]
      rfl
    have hget : pyDictGet? (pyDictOfList (fun r => r.id) requests) r.id = some r :=
      pyDictOfList_get_mem (fun r => r.id) requests hnd r hr
    rw [hre q, if_neg (by simp [hcont]), hpart]
    exact hget
  · intro hnoex hlen
    have hcont : pyDictContains (pyDictOfList (fun r => r.id) requests) q = false := by
      rw [pyDictOfList_contains]
      simp only [List.any_eq_false]
      intro x hx
      simp [hnoex x hx]
    have hpartlen :
        (partial_dict_key_match q (pyDictOfList (fun r => r.id) requests)).length ≠ 1 := by
      rw [pyDictOfList_eq_map (fun r => r.id) requests hnd,
        partial_dict_key_match_map (fun r => r.id) requests q, List.length_map]
      exact hlen
    rw [hre q, if_neg (by simp [hcont])]
    rcases hmatch : partial_dict_key_match q (pyDictOfList (fun r => r.id) requests) with
      _ | ⟨k, _ | ⟨k', ks⟩⟩
    · rw [hmatch]
    · exact absurd (by rw [hmatch]; rfl) hpartlen
    · rw [hmatch]

/-- Witness for C3: the spec's own scenario — ids `p1-256-axe_bow` and
`p1-256-axe_bow_caltrops`, where the query equals the first id exactly and is
also a proper prefix of the second. -/
theorem resolution_precedence_witness :
    (([mkExampleRequest "p1-256-axe_bow" [], mkExampleRequest "p1-256-axe_bow_caltrops" []].map
        (fun r => r.id)).Nodup ∧
      mkExampleRequest "p1-256-axe_bow" [] ∈
        [mkExampleRequest "p1-256-axe_bow" [], mkExampleRequest "p1-256-axe_bow_caltrops" []] ∧
      (mkExampleRequest "p1-256-axe_bow" []).id = "p1-256-axe_bow") ∧
    resolve_requests
      [mkExampleRequest "p1-256-axe_bow" [], mkExampleRequest "p1-256-axe_bow_caltrops" []]
      "p1-256-axe_bow" = some (mkExampleRequest "p1-256-axe_bow" []) :=
  ⟨⟨by decide, by decide, by decide⟩,
   (resolution_precedence
      [mkExampleRequest "p1-256-axe_bow" [], mkExampleRequest "p1-256-axe_bow_caltrops" []]
      "p1-256-axe_bow" (by decide)).1
     (mkExampleRequest "p1-256-axe_bow" []) (by decide) (by decide)⟩

/-! ## Claim C4 -/

/-- C4 counterexample: there is no distinct `Ambiguous` failure. With records
`ab1`, `ab2`, the ambiguous query `"a"` (two prefix matches, no exact match)
produces exactly the same outcome — `None` — as the query `"zzz"` that
matches nothing at all. -/
theorem ambiguity_not_distinguished :
    resolve_requests [mkExampleRequest "ab1" [], mkExampleRequest "ab2" []] "a" = none ∧
    resolve_requests [mkExampleRequest "ab1" [], mkExampleRequest "ab2" []] "zzz" = none ∧
    (partial_dict_key_match "a"
      (pyDictOfList (fun r => r.id)
        [mkExampleRequest "ab1" [], mkExampleRequest "ab2" []])).length = 2 ∧
    (partial_dict_key_match "zzz"
      (pyDictOfList (fun r => r.id)
        [mkExampleRequest "ab1" [], mkExampleRequest "ab2" []])).length = 0 ∧
    (∀ r ∈ [mkExampleRequest "ab1" [], mkExampleRequest "ab2" []], r.id ≠ "a") := by
  decide

/-- C4 amended: more than one prefix match (without an exact match) falls
through to the same plain not-found outcome (`None`) as zero matches; the
ambiguity is not surfaced distinctly. -/
theorem ambiguous_same_as_notfound (requests : List BatchRequest) (q q0 : String)
    (hnoex : ∀ r ∈ requests, r.id ≠ q)
    (hmulti : 1 < (partial_dict_key_match q (pyDictOfList (fun r => r.id) requests)).length)
    (hnoex0 : ∀ r ∈ requests, r.id ≠ q0)
    (hzero : partial_dict_key_match q0 (pyDictOfList (fun r => r.id) requests) = []) :
    resolve_requests requests q = none ∧
    resolve_requests requests q0 = none := by
  have hcont : ∀ qq, (∀ r ∈ requests, r.id ≠ qq) →
      pyDictContains (pyDictOfList (fun r => r.id) requests) qq = false := by
    intro qq hq
    rw [pyDictOfList_contains]
    simp only [List.any_eq_false]
    intro x hx
    simp [hq x hx]
  have hre : ∀ qq, resolve_requests requests qq =
      (if pyDictContains (pyDictOfList (fun r => r.id) requests) qq then
        pyDictGet? (pyDictOfList (fun r => r.id) requests) qq
      else
        match partial_dict_key_match qq (pyDictOfList (fun r => r.id) requests) with
        | [k] => pyDictGet? (pyDictOfList (fun r => r.id) requests) k
        | _ => none) := fun _ => rfl
  constructor
  · rw [hre q, if_neg (by simp [hcont q hnoex])]
    rcases hmatch : partial_dict_key_match q (pyDictOfList (fun r => r.id) requests) with
      _ | ⟨k, _ | ⟨k', ks⟩⟩
    · rw [hmatch]
    · rw [hmatch] at hmulti; simp at hmulti
    · rw [hmatch]
  · rw [hre q0, if_neg (by simp [hcont q0 hnoex0]), hzero]

/-- Witness for the amended C4 at the counterexample repository. -/
theorem ambiguous_same_as_notfound_witness :
    ((∀ r ∈ [mkExampleRequest "ab1" [], mkExampleRequest "ab2" []], r.id ≠ "a") ∧
      1 < (partial_dict_key_match "a"
        (pyDictOfList (fun r => r.id)
          [mkExampleRequest "ab1" [], mkExampleRequest "ab2" []])).length) ∧
    resolve_requests [mkExampleRequest "ab1" [], mkExampleRequest "ab2" []] "a" = none ∧
    resolve_requests [mkExampleRequest "ab1" [], mkExampleRequest "ab2" []] "zzz" = none :=
  ⟨⟨by decide, by decide⟩,
   ambiguous_same_as_notfound
     [mkExampleRequest "ab1" [], mkExampleRequest "ab2" []] "a" "zzz"
     (by decide) (by decide) (by decide) (by decide)⟩

/-! ## Except/mapM helper lemmas -/

theorem exceptMapM_ok_mem {γ β ε : Type} (g : γ → Except ε β) (l : List γ)
    (ys : List β) (h : l.mapM g = .ok ys) : ∀ a ∈ l, ∃ b, g a = .ok b := by
  induction l generalizing ys with
  | nil => intro a ha; cases ha
  | cons x xs ih =>
    intro a ha
    rw [List.mapM_cons] at h
    cases hgx : g x with
    | error e => rw [hgx] at h; simp [Bind.bind, Except.bind] at h
    | ok b =>
      rw [hgx] at h
      cases hxs : xs.mapM g with
      | error e => rw [hxs] at h; simp [Bind.bind, Except.bind] at h
      | ok bs =>
        rcases List.mem_cons.mp ha with rfl | ha'
        · exact ⟨b, hgx⟩
        · exact ih bs hxs a ha'

theorem exceptMapM_error_mem {γ β ε : Type} (g : γ → Except ε β) (l : List γ)
    (e : ε) (h : l.mapM g = .error e) : ∃ a ∈ l, g a = .error e := by
  induction l with
  | nil =>
    rw [List.mapM_nil] at h
    simp only [pure, Except.pure] at h
    exact Except.noConfusion h
  | cons x xs ih =>
    rw [List.mapM_cons] at h
    cases hgx : g x with
    | error e' =>
      rw [hgx] at h
      simp only [Bind.bind, Except.bind] at h
      cases h
      exact ⟨x, List.mem_cons_self x xs, hgx⟩
    | ok b =>
      rw [hgx] at h
      cases hxs : xs.mapM g with
      | error e' =>
        rw [hxs] at h
        simp only [Bind.bind, Except.bind] at h
        cases h
        obtain ⟨a, ha, hae⟩ := ih hxs
        exact ⟨a, List.mem_cons_of_mem x ha, hae⟩
      | ok bs =>
        rw [hxs] at h
        simp [Bind.bind, Except.bind, pure, Except.pure] at h

/-! ## Claim C9 -/

theorem mapM_lookup_names (catalog : List Icon) (l : List Icon)
    (h : ∀ i ∈ l, pyDictGet? (pyDictOfList (fun ic => ic.name) catalog) i.name
      = some i) :
    (l.map (fun ic => ic.name)).mapM (lookupIconExcept catalog)
      = Except.ok l := by
  induction l with
  | nil => rfl
  | cons i l ih =>
    have hlook : lookupIconExcept catalog i.name = .ok i := by
      unfold lookupIconExcept
      rw [h i (List.mem_cons_self i l)]
    rw [List.map_cons, List.mapM_cons, hlook,
      ih (fun j hj => h j (List.mem_cons_of_mem i hj))]
    rfl

/-- C9: saving a `BatchRequest` and reloading it from the same directory
against an unchanged catalog (the entity's icons are the catalog's icons: the
full catalog when `useAllIcons`, otherwise each stored icon is the catalog's
icon of its name) reproduces every field except the transient `prompts`
payload cache (reset to `[]`) and the derived `path`. -/
theorem save_load_round_trip (catalog : List Icon) (br : BatchRequest)
    (dir : String)
    (hall : br.use_all_icons = true → br.icons = catalog)
    (hexp : br.use_all_icons = false →
      ∀ i ∈ br.icons,
        pyDictGet? (pyDictOfList (fun ic => ic.name) catalog) i.name = some i) :
    load_all_batch_requests catalog dir [(br.id ++ ".yaml", save_record br)]
      = .ok [{ br with prompts := [], path := osPathJoin dir (br.id ++ ".yaml") }] := by
  have hload : load_one catalog dir (br.id ++ ".yaml") (save_record br)
      = .ok { br with prompts := [], path := osPathJoin dir (br.id ++ ".yaml") } := by
    cases hua : br.use_all_icons with
    | true =>
      simp only [load_one, save_record, hua, if_pos, if_true]
      rw [hall hua]
    | false =>
      simp only [load_one, save_record, hua, if_false, Bool.false_eq_true]
      rw [mapM_lookup_names catalog br.icons (hexp hua)]
      rfl
  unfold load_all_batch_requests
  rw [List.mapM_cons, hload, List.mapM_nil]
  rfl

/-- Witness for C9: round trip of a concrete explicit-selection entity
against its unchanged catalog. -/
theorem save_load_round_trip_witness :
    ((exampleExplicitRequest.use_all_icons = true →
        exampleExplicitRequest.icons = exampleCatalog) ∧
      (exampleExplicitRequest.use_all_icons = false →
        ∀ i ∈ exampleExplicitRequest.icons,
          pyDictGet? (pyDictOfList (fun ic => ic.name) exampleCatalog) i.name
            = some i)) ∧
    load_all_batch_requests exampleCatalog "batch_requests"
      [(exampleExplicitRequest.id ++ ".yaml", save_record exampleExplicitRequest)]
      = .ok [{ exampleExplicitRequest with prompts := [], path := osPathJoin "batch_requests" (exampleExplicitRequest.id ++ ".yaml") }] :=
  ⟨⟨fun h => absurd h (by decide), fun _ => by decide⟩,
   save_load_round_trip exampleCatalog exampleExplicitRequest "batch_requests"
     (fun h => absurd h (by decide)) (fun _ => by decide)⟩

/-! ## Claim C10 -/

theorem load_one_fails_on_bad (catalog : List Icon) (dir f : String)
    (raw : SavedBatchRequest) (names : List String) (bad : String)
    (hexp : raw.use_all_icons = false) (hn : raw.icons = some names)
    (hbad : bad ∈ names)
    (hmiss : pyDictGet? (pyDictOfList (fun ic => ic.name) catalog) bad = none) :
    ∃ e, load_one catalog dir f raw = .error e := by
  unfold load_one
  rw [hexp, hn]
  simp only [Bool.false_eq_true, if_false]
  cases hm : names.mapM (lookupIconExcept catalog) with
  | error e => exact ⟨e, rfl⟩
  | ok ys =>
    exfalso
    obtain ⟨b, hb⟩ := exceptMapM_ok_mem _ names ys hm bad hbad
    unfold lookupIconExcept at hb
    rw [hmiss] at hb
    exact Except.noConfusion hb

theorem load_one_error_shape (catalog : List Icon) (dir f : String)
    (raw : SavedBatchRequest) (hicons : raw.use_all_icons = false → raw.icons ≠ none)
    (e : LoadError) (h : load_one catalog dir f raw = .error e) :
    ∃ nm, e = .unknownIcon nm := by
  cases hua : raw.use_all_icons with
  | true => unfold load_one at h; rw [hua] at h; simp at h
  | false =>
    cases hn : raw.icons with
    | none => exact absurd hn (hicons hua)
    | some names =>
      have hprog : load_one catalog dir f raw = (names.mapM (lookupIconExcept catalog)) >>= fun icons => Except.ok { id := raw.id, prompt_id := raw.prompt_id, size := raw.size, icons := icons, use_all_icons := raw.use_all_icons, when_created := raw.when_created, author := raw.author, execution := raw.execution, path := osPathJoin dir f, prompts := [] } := by
        unfold load_one
        rw [hua, hn]
        rfl
      rw [hprog] at h
      cases hm : names.mapM (lookupIconExcept catalog) with
      | ok ys => rw [hm] at h; simp [Bind.bind, Except.bind] at h
      | error e' =>
        rw [hm] at h
        simp only [Bind.bind, Except.bind, Except.error.injEq] at h
        subst h
        obtain ⟨nm, _, hnm⟩ := exceptMapM_error_mem _ names e' hm
        revert hnm
        unfold lookupIconExcept
        cases hlook : pyDictGet? (pyDictOfList (fun ic => ic.name) catalog) nm with
        | none => intro hnm; cases hnm; exact ⟨nm, rfl⟩
        | some ic => intro hnm; exact Except.noConfusion hnm

/-- C10: `load_batch_request` loads every metadata file of the directory
before resolving, so a single stored record whose explicit selection names an
icon absent from the catalog makes resolution fail with the unknown-icon
error for every query — including queries whose own records are perfectly
valid. (The well-formedness hypothesis `hwf` rules out records without an
`icons` key, whose absence would be a `KeyError` rather than this
`ValueError`.) -/
theorem bad_record_poisons_resolution (catalog : List Icon) (dir : String)
    (files : List (String × SavedBatchRequest)) (f : String)
    (raw : SavedBatchRequest) (names : List String) (bad : String)
    (hmem : (f, raw) ∈ files) (hexp : raw.use_all_icons = false)
    (hn : raw.icons = some names) (hbad : bad ∈ names)
    (hmiss : pyDictGet? (pyDictOfList (fun ic => ic.name) catalog) bad = none)
    (hwf : ∀ fr ∈ files, fr.2.use_all_icons = false → fr.2.icons ≠ none) :
    ∀ q, ∃ nm, load_batch_request catalog dir files q
      = .error (.unknownIcon nm) := by
  obtain ⟨e0, he0⟩ :=
    load_one_fails_on_bad catalog dir f raw names bad hexp hn hbad hmiss
  have hall : ∃ e, load_all_batch_requests catalog dir files = .error e := by
    cases hres : load_all_batch_requests catalog dir files with
    | ok rs =>
      exfalso
      obtain ⟨b, hb⟩ := exceptMapM_ok_mem _ files rs hres (f, raw) hmem
      rw [he0] at hb
      exact Except.noConfusion hb
    | error e => exact ⟨e, rfl⟩
  obtain ⟨e, he⟩ := hall
  obtain ⟨fr, hfr, hfe⟩ := exceptMapM_error_mem _ files e he
  obtain ⟨nm, rfl⟩ :=
    load_one_error_shape catalog dir fr.1 fr.2 (hwf fr hfr) e hfe
  intro q
  refine ⟨nm, ?_⟩
  unfold load_batch_request
  rw [he]
  rfl

/-- Witness for C10: a directory holding a valid record and a record naming
the absent icon `"ghost"`; even the query naming the valid record's own id
fails with the unknown-icon error. -/
theorem bad_record_poisons_resolution_witness :
    (("p1-256-bad.yaml", exampleBadSaved) ∈
        [("p1-256-axe.yaml", save_record exampleExplicitRequest),
         ("p1-256-bad.yaml", exampleBadSaved)] ∧
      exampleBadSaved.use_all_icons = false ∧
      exampleBadSaved.icons = some ["ghost"] ∧
      "ghost" ∈ ["ghost"] ∧
      pyDictGet? (pyDictOfList (fun ic => ic.name) exampleCatalog) "ghost" = none) ∧
    (∃ nm, load_batch_request exampleCatalog "batch_requests"
      [("p1-256-axe.yaml", save_record exampleExplicitRequest),
       ("p1-256-bad.yaml", exampleBadSaved)] "p1-256-axe"
      = .error (.unknownIcon nm)) :=
  ⟨⟨by decide, by decide, by decide, by decide, by decide⟩,
   bad_record_poisons_resolution exampleCatalog "batch_requests"
     [("p1-256-axe.yaml", save_record exampleExplicitRequest),
      ("p1-256-bad.yaml", exampleBadSaved)]
     "p1-256-bad.yaml" exampleBadSaved ["ghost"] "ghost"
     (by decide) (by decide) (by decide) (by decide) (by decide)
     (by decide) "p1-256-axe"⟩

/-! ## The serializer emits no newline characters -/

theorem getD_ne (l : List Char) (n : Nat) (d c : Char) (hl : c ∉ l)
    (hd : d ≠ c) : l.getD n d ≠ c := by
  cases hx : l[n]? with
  | none => rw [List.getD_eq_getElem?_getD, hx]; exact hd
  | some x =>
    have hmem := List.getElem?_mem hx
    rw [List.getD_eq_getElem?_getD, hx]
    exact fun e => hl (e ▸ hmem)

theorem hexDigit_ne_nl (n : Nat) : hexDigit n ≠ '\n' :=
  getD_ne _ _ _ _ (by decide) (by decide)

theorem uHex4_no_nl (n : Nat) : '\n' ∉ uHex4 n := by
  unfold uHex4
  intro h
  simp only [List.mem_cons, List.not_mem_nil, or_false] at h
  rcases h with h | h | h | h | h | h
  · exact absurd h (by decide)
  · exact absurd h (by decide)
  · exact hexDigit_ne_nl _ h.symm
  · exact hexDigit_ne_nl _ h.symm
  · exact hexDigit_ne_nl _ h.symm
  · exact hexDigit_ne_nl _ h.symm

theorem uEscape_no_nl (n : Nat) : '\n' ∉ uEscape n := by
  unfold uEscape
  by_cases h : n < 0x10000
  · rw [if_pos h]; exact uHex4_no_nl n
  · rw [if_neg h]
    intro hmem
    rcases List.mem_append.mp hmem with hh | hh
    · exact uHex4_no_nl _ hh
    · exact uHex4_no_nl _ hh

theorem jsonEscapeChar_no_nl (c : Char) : '\n' ∉ jsonEscapeChar c := by
  unfold jsonEscapeChar
  split_ifs with h1 h2 h3 h4 h5 h6 h7 h8
  · decide
  · decide
  · decide
  · decide
  · decide
  · decide
  · decide
  · exact uEscape_no_nl _
  · intro hmem
    simp only [List.mem_cons, List.not_mem_nil, or_false] at hmem
    subst hmem
    push_neg at h8
    have h10 : ('\n').toNat = 10 := by decide
    omega

theorem jsonQuote_no_nl (s : String) : '\n' ∉ (jsonQuote s).data := by
  unfold jsonQuote
  intro hmem
  rcases List.mem_cons.mp hmem with h | h
  · exact absurd h (by decide)
  rcases List.mem_append.mp h with h | h
  · obtain ⟨sub, hsub, hin⟩ := List.mem_flatten.mp h
    obtain ⟨cc, _, rfl⟩ := List.mem_map.mp hsub
    exact jsonEscapeChar_no_nl cc hin
  · simp only [List.mem_cons, List.not_mem_nil, or_false] at h
    exact absurd h (by decide)

theorem natDigitsGo_no_nl (fuel : Nat) :
    ∀ (n : Nat) (acc : List Char), '\n' ∉ acc →
      '\n' ∉ natDigitsGo fuel n acc := by
  induction fuel with
  | zero => intro n acc hacc; exact hacc
  | succ fuel ih =>
    intro n acc hacc
    unfold natDigitsGo
    by_cases h : n = 0
    · rw [if_pos h]; exact hacc
    · rw [if_neg h]
      refine ih _ _ ?_
      intro hmem
      rcases List.mem_cons.mp hmem with h2 | h2
      · exact hexDigit_ne_nl _ h2.symm
      · exact hacc h2

theorem dumpInt_no_nl (n : Int) : '\n' ∉ (dumpInt n).data := by
  unfold dumpInt
  by_cases h0 : n = 0
  · rw [if_pos h0]; decide
  · rw [if_neg h0]
    intro hmem
    rw [String.data_append] at hmem
    rcases List.mem_append.mp hmem with h | h
    · by_cases hneg : n < 0
      · rw [if_pos hneg] at h
        simp only [List.mem_cons, List.not_mem_nil, or_false] at h
        · exact absurd h (by decide)
      · rw [if_neg hneg] at h; exact absurd h (by decide)
    · exact natDigitsGo_no_nl _ _ _ (by decide) h

theorem dump_no_nl_all (n : Nat) :
    (∀ j : Json, sizeOf j ≤ n → '\n' ∉ (dumpJson j).data) ∧
    (∀ es : List Json, sizeOf es ≤ n → '\n' ∉ (dumpList es).data) ∧
    (∀ fs : List (String × Json), sizeOf fs ≤ n → '\n' ∉ (dumpFields fs).data) := by
  induction n using Nat.strong_induction_on with
  | _ n ih =>
    refine ⟨?_, ?_, ?_⟩
    · intro j hj
      cases j with
      | null => decide
      | bool b => cases b <;> decide
      | num m => exact dumpInt_no_nl m
      | str s => exact jsonQuote_no_nl s
      | arr es =>
        have hlt : sizeOf es < n := by
          have := Json.arr.sizeOf_spec es; omega
        intro hmem
        rw [dumpJson, String.data_append, String.data_append] at hmem
        rcases List.mem_append.mp hmem with h | h
        · rcases List.mem_append.mp h with h | h
          · exact absurd h (by decide)
          · exact (ih _ hlt).2.1 es (le_refl _) h
        · exact absurd h (by decide)
      | obj fs =>
        have hlt : sizeOf fs < n := by
          have := Json.obj.sizeOf_spec fs; omega
        intro hmem
        rw [dumpJson, String.data_append, String.data_append] at hmem
        rcases List.mem_append.mp hmem with h | h
        · rcases List.mem_append.mp h with h | h
          · exact absurd h (by decide)
          · exact (ih _ hlt).2.2 fs (le_refl _) h
        · exact absurd h (by decide)
    · intro es hes
      cases es with
      | nil => decide
      | cons e es2 =>
        have hsz := List.cons.sizeOf_spec e es2
        cases es2 with
        | nil =>
          have hnil : sizeOf ([] : List Json) = 1 := rfl
          have hlt : sizeOf e < n := by omega
          rw [dumpList]
          exact (ih _ hlt).1 e (le_refl _)
        | cons e2 es3 =>
          have hlt1 : sizeOf e < n := by omega
          have hlt2 : sizeOf (e2 :: es3) < n := by omega
          intro hmem
          rw [dumpList, String.data_append, String.data_append] at hmem
          rcases List.mem_append.mp hmem with h | h
          · rcases List.mem_append.mp h with h | h
            · exact (ih _ hlt1).1 e (le_refl _) h
            · exact absurd h (by decide)
          · exact (ih _ hlt2).2.1 (e2 :: es3) (le_refl _) h
          · exact fun hh => absurd hh (List.cons_ne_nil _ _)
    · intro fs hfs
      cases fs with
      | nil => decide
      | cons kv fs2 =>
        have hsz := List.cons.sizeOf_spec kv fs2
        have hkv : sizeOf kv = 1 + sizeOf kv.1 + sizeOf kv.2 := by
          cases kv; simp
        cases fs2 with
        | nil =>
          have hnil : sizeOf ([] : List (String × Json)) = 1 := rfl
          have hlt : sizeOf kv.2 < n := by omega
          intro hmem
          rw [dumpFields, String.data_append, String.data_append] at hmem
          rcases List.mem_append.mp hmem with h | h
          · rcases List.mem_append.mp h with h | h
            · exact jsonQuote_no_nl kv.1 h
            · exact absurd h (by decide)
          · exact (ih _ hlt).1 kv.2 (le_refl _) h
        | cons kv2 fs3 =>
          have hlt1 : sizeOf kv.2 < n := by omega
          have hlt2 : sizeOf (kv2 :: fs3) < n := by omega
          intro hmem
          rw [dumpFields, String.data_append, String.data_append,
            String.data_append, String.data_append] at hmem
          rcases List.mem_append.mp hmem with h | h
          · rcases List.mem_append.mp h with h | h
            · rcases List.mem_append.mp h with h | h
              · rcases List.mem_append.mp h with h | h
                · exact jsonQuote_no_nl kv.1 h
                · exact absurd h (by decide)
              · exact (ih _ hlt1).1 kv.2 (le_refl _) h
            · exact absurd h (by decide)
          · exact (ih _ hlt2).2.2 (kv2 :: fs3) (le_refl _) h
          · exact fun hh => absurd hh (List.cons_ne_nil _ _)

theorem dumpJson_no_nl (j : Json) : '\n' ∉ (dumpJson j).data :=
  (dump_no_nl_all (sizeOf j)).1 j (le_refl _)

/-! ## Line counting of `"\n".join` -/

theorem joinLines_count (ls : List String) (h : ∀ l ∈ ls, '\n' ∉ l.data)
    (hne : ls ≠ []) :
    (joinLines ls).data.count '\n' = ls.length - 1 := by
  induction ls with
  | nil => exact absurd rfl hne
  | cons l ls ih =>
    cases ls with
    | nil =>
      rw [joinLines]
      simp [List.count_eq_zero.mpr (h l (List.mem_cons_self l []))]
    | cons l2 ls2 =>
      rw [joinLines, String.data_append, String.data_append,
        List.count_append, List.count_append]
      rw [List.count_eq_zero.mpr (h l (List.mem_cons_self l _)),
        ih (fun x hx => h x (List.mem_cons_of_mem l hx)) (List.cons_ne_nil l2 ls2)]
      simp only [List.length_cons, Nat.zero_add]
      have hone : List.count '\n' ("\n").data = 1 := by decide
      rw [hone]
      omega
      exact fun hh => absurd hh (List.cons_ne_nil _ _)

/-! ## `pyDictInsert` getter lemmas -/

theorem find?_map_of_pred {α : Type} (f : α → α) (pred : α → Bool)
    (hpred : ∀ p, pred (f p) = pred p)
    (hfix : ∀ p, pred p = true → f p = p) :
    ∀ m : List α, List.find? pred (m.map f) = List.find? pred m := by
  intro m
  induction m with
  | nil => rfl
  | cons p m ih =>
    rw [List.map_cons, List.find?, List.find?, hpred p]
    cases hp : pred p with
    | false => exact ih
    | true => rw [hfix p hp]

theorem find?_map_of_const {α : Type} (f : α → α) (pred : α → Bool) (c : α)
    (hpred : ∀ p, pred (f p) = pred p)
    (hconst : ∀ p, pred p = true → f p = c) :
    ∀ m : List α, List.find? pred (m.map f)
      = (List.find? pred m).map (fun _ => c) := by
  intro m
  induction m with
  | nil => rfl
  | cons p m ih =>
    rw [List.map_cons, List.find?, List.find?, hpred p]
    cases hp : pred p with
    | false => exact ih
    | true => rw [hconst p hp]; rfl

theorem pyDictGet?_insert_self {α : Type} (m : List (String × α)) (k : String)
    (v : α) : pyDictGet? (pyDictInsert m k v) k = some v := by
  unfold pyDictInsert pyDictGet?
  by_cases hany : m.any (fun p => p.1 = k) = true
  · rw [if_pos hany]
    rw [find?_map_of_const (fun p => if p.1 = k then (k, v) else p)
      (fun p => p.1 = k) (k, v) ?hpred ?hconst m]
    case hpred =>
      intro p
      show decide ((if p.1 = k then (k, v) else p).1 = k) = decide (p.1 = k)
      by_cases hp : p.1 = k
      · rw [if_pos hp, hp]
      · rw [if_neg hp]
    case hconst =>
      intro p hp
      show (if p.1 = k then (k, v) else p) = (k, v)
      exact if_pos (of_decide_eq_true hp)
    obtain ⟨p, hp, hpk⟩ := List.any_eq_true.mp hany
    cases hf : List.find? (fun p => decide (p.1 = k)) m with
    | none =>
      exfalso
      exact (List.find?_eq_none.mp hf p hp) hpk
    | some p0 => rfl
  · rw [if_neg hany]
    rw [List.find?_append]
    have hnone : List.find? (fun p => decide (p.1 = k)) m = none := by
      rw [List.find?_eq_none]
      intro x hx hc
      exact hany (List.any_eq_true.mpr ⟨x, hx, hc⟩)
    rw [hnone]
    simp [List.find?]

theorem pyDictGet?_insert_other {α : Type} (m : List (String × α))
    (k k' : String) (v : α) (hk : k' ≠ k) :
    pyDictGet? (pyDictInsert m k v) k' = pyDictGet? m k' := by
  unfold pyDictInsert pyDictGet?
  by_cases hany : m.any (fun p => p.1 = k) = true
  · rw [if_pos hany]
    rw [find?_map_of_pred (fun p => if p.1 = k then (k, v) else p)
      (fun p => p.1 = k') ?hpred ?hfix m]
    case hpred =>
      intro p
      show decide ((if p.1 = k then (k, v) else p).1 = k') = decide (p.1 = k')
      by_cases hp : p.1 = k
      · rw [if_pos hp, hp]
      · rw [if_neg hp]
    case hfix =>
      intro p hp
      show (if p.1 = k then (k, v) else p) = p
      have hpk : p.1 = k' := of_decide_eq_true hp
      exact if_neg (fun e => hk (hpk ▸ e))
  · rw [if_neg hany]
    rw [List.find?_append]
    have hlast : List.find? (fun p => decide (p.1 = k')) [(k, v)] = none := by
      rw [List.find?_eq_none]
      intro x hx
      simp only [List.mem_cons, List.not_mem_nil, or_false] at hx
      subst hx
      exact fun hc => hk (of_decide_eq_true hc).symm
    rw [hlast]
    cases List.find? (fun p => decide (p.1 = k')) m <;> rfl

theorem optionMapM_spec {γ β : Type} (f : γ → Option β) (l : List γ)
    (h : ∀ a ∈ l, ∃ b, f a = some b) :
    ∃ ys : List β, l.mapM f = some ys ∧ ys.length = l.length ∧
      ∀ (i : Nat) (a : γ), l[i]? = some a →
        ∃ b, f a = some b ∧ ys[i]? = some b := by
  induction l with
  | nil =>
    refine ⟨[], rfl, rfl, ?_⟩
    intro i a ha
    simp at ha
  | cons x xs ih =>
    obtain ⟨b, hb⟩ := h x (List.mem_cons_self x xs)
    obtain ⟨ys, hys, hlen, hget⟩ := ih (fun a ha => h a (List.mem_cons_of_mem x ha))
    refine ⟨b :: ys, ?_, by simp [hlen], ?_⟩
    · rw [List.mapM_cons, hb, hys]; rfl
    · intro i a ha
      cases i with
      | zero =>
        rw [List.getElem?_cons_zero] at ha
        cases ha
        exact ⟨b, hb, by simp⟩
      | succ i =>
        rw [List.getElem?_cons_succ] at ha
        obtain ⟨b', hb', hy⟩ := hget i a ha
        exact ⟨b', hb', by rw [List.getElem?_cons_succ]; exact hy⟩

/-! ## Claim C8 -/

/-- C8: on a non-empty well-formed stored payload (each record an object with
a string `custom_id` and an object `body`), `finalize_prompts` succeeds, its
output has exactly as many lines as the payload has records, records are
transformed in order, each output record carries
`custom_id = "{original}|{execution_id}"` and a `body` equal to the original
with the configured model name written at `"model"`, and every other key of
the record and of the body is unchanged. -/
theorem finalize_prompts_spec (open_ai_config : Configuration)
    (execution_id : String) (prompts : List Json) (hne : prompts ≠ [])
    (hwf : ∀ j ∈ prompts, ∃ fields cid bodyFields, j = Json.obj fields ∧
      pyDictGet? fields "custom_id" = some (Json.str cid) ∧
      pyDictGet? fields "body" = some (Json.obj bodyFields)) :
    ∃ js : List Json,
      prompts.mapM (finalizeRecord open_ai_config.gpt_model execution_id)
        = some js ∧
      finalize_prompts prompts execution_id open_ai_config
        = some (joinLines (js.map dumpJson)) ∧
      js.length = prompts.length ∧
      countLines (joinLines (js.map dumpJson)) = prompts.length ∧
      ∀ (i : Nat) (fields : List (String × Json)) (cid : String)
          (bodyFields : List (String × Json)),
        prompts[i]? = some (Json.obj fields) →
        pyDictGet? fields "custom_id" = some (Json.str cid) →
        pyDictGet? fields "body" = some (Json.obj bodyFields) →
        ∃ newFields, js[i]? = some (Json.obj newFields) ∧
          pyDictGet? newFields "custom_id"
            = some (Json.str (cid ++ "|" ++ execution_id)) ∧
          pyDictGet? newFields "body"
            = some (Json.obj (pyDictInsert bodyFields "model"
                (Json.str open_ai_config.gpt_model))) ∧
          pyDictGet? (pyDictInsert bodyFields "model"
              (Json.str open_ai_config.gpt_model)) "model"
            = some (Json.str open_ai_config.gpt_model) ∧
          (∀ k, k ≠ "model" →
            pyDictGet? (pyDictInsert bodyFields "model"
              (Json.str open_ai_config.gpt_model)) k = pyDictGet? bodyFields k) ∧
          (∀ k, k ≠ "custom_id" → k ≠ "body" →
            pyDictGet? newFields k = pyDictGet? fields k) := by
  have hrec : ∀ fields cid bodyFields,
      pyDictGet? fields "custom_id" = some (Json.str cid) →
      pyDictGet? fields "body" = some (Json.obj bodyFields) →
      finalizeRecord open_ai_config.gpt_model execution_id (Json.obj fields)
        = some (Json.obj (pyDictInsert
            (pyDictInsert fields "body"
              (Json.obj (pyDictInsert bodyFields "model"
                (Json.str open_ai_config.gpt_model))))
            "custom_id" (Json.str (cid ++ "|" ++ execution_id)))) := by
    intro fields cid bodyFields hcid hbody
    unfold finalizeRecord
    simp only [hbody, hcid]
  have hf : ∀ j ∈ prompts,
      ∃ b, finalizeRecord open_ai_config.gpt_model execution_id j = some b := by
    intro j hj
    obtain ⟨fields, cid, bodyFields, rfl, hcid, hbody⟩ := hwf j hj
    exact ⟨_, hrec fields cid bodyFields hcid hbody⟩
  obtain ⟨js, hjs, hlen, hget⟩ :=
    optionMapM_spec (finalizeRecord open_ai_config.gpt_model execution_id)
      prompts hf
  refine ⟨js, hjs, ?_, hlen, ?_, ?_⟩
  · unfold finalize_prompts
    rw [hjs]
    rfl
  · have hnl : ∀ l ∈ js.map dumpJson, '\n' ∉ l.data := by
      intro l hl
      obtain ⟨j, _, rfl⟩ := List.mem_map.mp hl
      exact dumpJson_no_nl j
    have hjsne : js.map dumpJson ≠ [] := by
      intro hh
      have : js = [] := List.map_eq_nil_iff.mp hh
      rw [this] at hlen
      exact hne (List.length_eq_zero.mp hlen.symm)
    rw [countLines, joinLines_count (js.map dumpJson) hnl hjsne,
      List.length_map, hlen]
    have : prompts.length ≠ 0 := fun hh => hne (List.length_eq_zero.mp hh)
    omega
  · intro i fields cid bodyFields hpi hcid hbody
    obtain ⟨b, hb, hjsi⟩ := hget i (Json.obj fields) hpi
    rw [hrec fields cid bodyFields hcid hbody] at hb
    cases hb
    refine ⟨_, hjsi, ?_, ?_, ?_, ?_, ?_⟩
    · exact pyDictGet?_insert_self _ "custom_id" _
    · rw [pyDictGet?_insert_other _ "custom_id" "body" _ (by decide)]
      exact pyDictGet?_insert_self _ "body" _
    · exact pyDictGet?_insert_self _ "model" _
    · intro k hk
      exact pyDictGet?_insert_other _ "model" k _ hk
    · intro k hk1 hk2
      rw [pyDictGet?_insert_other _ "custom_id" k _ hk1,
        pyDictGet?_insert_other _ "body" k _ hk2]

/-- Witness for C8 on a concrete one-record payload. -/
theorem finalize_prompts_spec_witness :
    (([Json.obj [("custom_id", Json.str "p1-256|axe"),
        ("body", Json.obj [("model", Json.str "")])]] : List Json) ≠ [] ∧
      (∀ j ∈ ([Json.obj [("custom_id", Json.str "p1-256|axe"),
          ("body", Json.obj [("model", Json.str "")])]] : List Json),
        ∃ fields cid bodyFields, j = Json.obj fields ∧
          pyDictGet? fields "custom_id" = some (Json.str cid) ∧
          pyDictGet? fields "body" = some (Json.obj bodyFields))) ∧
    (∃ js : List Json,
      ([Json.obj [("custom_id", Json.str "p1-256|axe"),
          ("body", Json.obj [("model", Json.str "")])]] : List Json).mapM
          (finalizeRecord ({ gpt_api_key := "k", gpt_model := "gpt-4o" } :
            Configuration).gpt_model "0") = some js ∧
      finalize_prompts [Json.obj [("custom_id", Json.str "p1-256|axe"),
          ("body", Json.obj [("model", Json.str "")])]] "0"
          { gpt_api_key := "k", gpt_model := "gpt-4o" }
        = some (joinLines (js.map dumpJson)) ∧
      js.length = 1) :=
  ⟨⟨List.cons_ne_nil _ _,
    fun j hj => by
      rw [List.mem_singleton] at hj
      subst hj
      exact ⟨[("custom_id", Json.str "p1-256|axe"),
        ("body", Json.obj [("model", Json.str "")])], "p1-256|axe",
        [("model", Json.str "")], rfl, rfl, rfl⟩⟩,
   by
    obtain ⟨js, h1, h2, h3, _⟩ :=
      finalize_prompts_spec { gpt_api_key := "k", gpt_model := "gpt-4o" } "0"
        [Json.obj [("custom_id", Json.str "p1-256|axe"),
          ("body", Json.obj [("model", Json.str "")])]]
        (List.cons_ne_nil _ _)
        (fun j hj => by
          rw [List.mem_singleton] at hj
          subst hj
          exact ⟨[("custom_id", Json.str "p1-256|axe"),
            ("body", Json.obj [("model", Json.str "")])], "p1-256|axe",
            [("model", Json.str "")], rfl, rfl, rfl⟩)
    exact ⟨js, h1, h2, by rw [h3]; rfl⟩⟩

end LabelGameIcons
